import Mathlib

/-!
Shallow embedding of the Paradone peer-to-peer media-distribution client
(peer routing, gossip random peer sampling, segmented media fetching), with
theorems checking the natural-language specification against the code.

Sources embedded here:
* `src/peer.js` (shipped inside the repository README concatenation):
  `Peer.prototype.send`, `broadcast`, `Peer.prototype.forward`,
  `processQueue`, `Peer.prototype.requestPeer`;
* `src/datachannel.js`: the channel `onmessage` handler;
* `src/signal.js`: `Signal.prototype.send`;
* `src/messageEmitter.js`: `MessageEmitter.prototype.removeAllListeners`;
* `src/extensions/media.js`: `Media.prototype.peerHasPart`,
  `Media.prototype.append`, `Media.prototype.getChunkedPart`;
* `src/extensions/gossipRPS.js`: `GossipRPS.prototype.genBuffer`,
  `GossipRPS.prototype.mergeView`;
* `src/extensions/gossipAlgo.js` (shipped inside the `media.js`
  concatenation): the `GossipAlgorithm` base class providing
  `selfDescriptor` and `randomSubview`;
* `src/util.js`: `messageIsValid`, `shuffleArray` (modelled as an oracle).

JavaScript conventions used throughout the embedding:
* untyped JS scalars that matter to the control flow (message destinations,
  part numbers) are modelled by `JsVal` (number or string), so that the
  strict-equality operator `===` can be modelled faithfully;
* runtime exceptions (`TypeError` on property access of `undefined`,
  explicit `throw new Error(...)`) are modelled with `Except`/error results;
* `Math.random`-driven shuffles are modelled by an oracle function `sh`
  together with the hypothesis that it permutes its input.
-/

deriving instance DecidableEq for Except

namespace Paradone

/-- A JavaScript primitive value as far as the embedded code distinguishes
them: a (integral) number or a string.  JS `===` on these is `jsStrictEq`. -/
inductive JsVal where
  | num (n : Int)
  | str (s : String)
deriving DecidableEq, Repr

/-- JS strict equality `===` between two primitive values: values of
different runtime types are never strictly equal. -/
def jsStrictEq : JsVal → JsVal → Bool
  | .num a, .num b => a == b
  | .str a, .str b => a == b
  | _, _ => false

/-- The JS errors the embedded code can raise. -/
inductive JsError where
  /-- `TypeError`: property access / method call on `undefined`. -/
  | typeError
  /-- `Peer.prototype.send`: `throw new Error('Message object is invalid')`. -/
  | invalidMessage
  /-- `Media.prototype.append`:
  `throw new Error('Unexpected part has been received')`. -/
  | unexpectedPart
deriving DecidableEq, Repr

/-! ### MessageEmitter (`src/messageEmitter.js`)

Listener sets are modelled as lists of opaque listener names; the listener
map `this.listeners` (a JS `Map` from message type to a `Set` of listeners)
is an association list.  `Map#has`/`Map#get` become `List.lookup`. -/

/-- The `listeners` map of a `MessageEmitter`: message type ↦ listener set. -/
abbrev ListenerMap := List (String × List String)

/-- `MessageEmitter.prototype.removeAllListeners(messageType)`.

Source control flow: with `messageType === undefined` the whole map is
cleared; otherwise the code runs
`if(!this.listeners.has(messageType)) { this.listeners.get(messageType).clear() }`,
so a *present* type falls through unchanged while an *absent* type calls
`.clear()` on `undefined`, raising a `TypeError`. -/
def removeAllListeners (lm : ListenerMap) (messageType : Option String) :
    Except JsError ListenerMap :=
  match messageType with
  | none => .ok []
  | some t =>
    if (lm.lookup t).isSome then
      .ok lm
    else
      .error .typeError

/-! ### Media (`src/extensions/media.js`) -/

/-- Status of a video part (see the `Part` typedef in `media.js`). -/
inductive PartStatus where
  | needed
  | pending
  | available
  | added
deriving DecidableEq, Repr

/-- A byte buffer (`ArrayBuffer` contents / untyped byte array). -/
abbrev Bytes := List Nat

/-- One entry of `media.parts`.  `part` is the reassembled buffer (absent
until the part is complete); `chunks` is the JS array used to collect the
chunks of a chunked part — a JS array may contain holes, hence
`Option Bytes` elements; its `length` is the list length (highest set
index + 1), exactly as in JS. -/
structure MediaPart where
  partNumber : Int
  status : PartStatus
  part : Option Bytes := none
  chunks : Option (List (Option Bytes)) := none
deriving DecidableEq, Repr

/-- The slice of `Media` state the embedded methods read and write.  The
three Booleans stand for `this.hasOwnProperty('sourceBuffer')`,
`this.mediaSource.readyState === 'open'` and `this.sourceBuffer.updating`
in the tail block of `append`. -/
structure MediaState where
  parts : List MediaPart
  hasSourceBuffer : Bool := false
  mediaSourceOpen : Bool := false
  sourceBufferUpdating : Bool := false
deriving DecidableEq, Repr

/-- JS array indexing `a[i]` with an integer index: out of range (negative
or past the end) yields `undefined`, modelled as `none`. -/
def jsIndex {α : Type} (l : List α) (i : Int) : Option α :=
  if h : 0 ≤ i ∧ i.toNat < l.length then some (l.get ⟨i.toNat, h.2⟩) else none

/-- `Media.prototype.peerHasPart(partNumber)`:
`var part = this.parts[partNumber];
 return part.status === 'available' || part.status === 'added'`.
When `partNumber` is out of range, `this.parts[partNumber]` is `undefined`
and reading `.status` raises a `TypeError`. -/
def peerHasPart (m : MediaState) (partNumber : Int) : Except JsError Bool :=
  match jsIndex m.parts partNumber with
  | none => .error .typeError
  | some part => .ok (part.status = .available ∨ part.status = .added)

/-- `Media.prototype.getChunkedPart(chunkSize, partNumber)`: when the part
exists, split `part` (its byte buffer) into `ceil(byteLength / chunkSize)`
chunks via `part.slice(i * chunkSize, (i + 1) * chunkSize)`; otherwise
return `[]`.  Reading `.byteLength` of an absent buffer raises a
`TypeError`.  (`chunkSize = 0` would make the JS loop bound `Infinity`;
all theorems below take `1 ≤ chunkSize`.) -/
def getChunkedPart (m : MediaState) (chunkSize : Nat) (partNumber : Int) :
    Except JsError (List Bytes) :=
  match jsIndex m.parts partNumber with
  | none => .ok []
  | some p =>
    match p.part with
    | none => .error .typeError
    | some part =>
      let numberOfChunks := (part.length + chunkSize - 1) / chunkSize
      .ok ((List.range numberOfChunks).map
        (fun i => (part.drop (i * chunkSize)).take chunkSize))

/-- JS array element assignment `a[i] = x` on an array of length
`a.length`: writing past the end extends the array with holes so that the
new `length` is `max (a.length) (i + 1)`. -/
def jsArraySet (l : List (Option Bytes)) (i : Nat) (x : Bytes) :
    List (Option Bytes) :=
  if i < l.length then l.set i (some x)
  else l ++ List.replicate (i - l.length) none ++ [some x]

/-- `String(number)` for the `number` field of a part message. -/
def jsToString : JsVal → String
  | .num n => toString n
  | .str s => s

/-- `s.split(':')` on the character list of a string (structural recursion
so that concrete scenarios evaluate). -/
def splitOnColon : List Char → List (List Char)
  | [] => [[]]
  | c :: cs =>
    if c = ':' then
      [] :: splitOnColon cs
    else
      match splitOnColon cs with
      | [] => [[c]]
      | piece :: pieces => (c :: piece) :: pieces

/-- Accumulating base-10 parser for a digit string. -/
def parseDigits (acc : Nat) : List Char → Option Nat
  | [] => some acc
  | c :: cs =>
    if '0' ≤ c ∧ c ≤ '9' then
      parseDigits (acc * 10 + (c.toNat - '0'.toNat)) cs
    else
      none

/-- Interpretation of a string used as a JS array index
(`this.parts[partNumber]` with `partNumber` a piece of
`String(number).split(':')`): a canonical base-10 numeral (no sign, no
leading zero) addresses that index; anything else is an ordinary property
name and reads `undefined`. -/
def parseArrayIndex : List Char → Option Nat
  | [] => none
  | c :: cs =>
    if c = '0' then
      if cs = [] then some 0 else none
    else
      parseDigits 0 (c :: cs)

/-- `R.flatten` applied to the chunk array: concatenation of the chunks in
index order (holes contribute nothing). -/
def flattenChunks (chunks : List (Option Bytes)) : Bytes :=
  chunks.foldr (fun c acc => c.getD [] ++ acc) []

/-- `Media.prototype.append(number, buffer)`, threading the media state and
returning the state reached when an exception is thrown (all mutations in
the source happen after the `status !== 'pending'` check).

Mirrors the source line by line:
`[partNumber, chunkNumber, numberOfChunks] = String(number).split(':')`
(three *strings*), the `pending` check with its `throw`, chunk storage in
`parts[partNumber].chunks[chunkNumber]`, the completeness test
`partObject.chunks.length === numberOfChunks` — a strict equality between
a *number* and a *string*, modelled by `jsStrictEq` — and the tail block
that appends an `available` part to an open, idle source buffer. -/
def Media.append (m : MediaState) (number : JsVal) (buffer : Bytes) :
    MediaState × Option JsError :=
  let pieces := splitOnColon (jsToString number).toList
  let partNumberStr := pieces.headD []
  let chunkNumberStr := pieces.get? 1
  let numberOfChunksStr := pieces.get? 2
  match parseArrayIndex partNumberStr with
  | none => (m, some .typeError)      -- `partObject` is `undefined`; `.status` throws
  | some idx =>
    match m.parts.get? idx with
    | none => (m, some .typeError)
    | some partObject =>
      if partObject.status ≠ .pending then
        (m, some .unexpectedPart)     -- thrown before any mutation
      else
        match chunkNumberStr with
        | some chunkStr =>
          match parseArrayIndex chunkStr with
          | none => (m, some .typeError)
          | some cidx =>
            let chunks := partObject.chunks.getD []
            let chunks' := jsArraySet chunks cidx buffer
            let complete :=
              match numberOfChunksStr with
              | some nStr =>
                jsStrictEq (.num chunks'.length) (.str (String.mk nStr))
              | none => false
            let partObject' :=
              if complete then
                { partObject with chunks := some chunks',
                                  part := some (flattenChunks chunks'),
                                  status := .available }
              else
                { partObject with chunks := some chunks' }
            let m' := { m with parts := m.parts.set idx partObject' }
            appendTail m' idx
        | none =>
          let partObject' :=
            { partObject with part := some buffer, status := .available }
          let m' := { m with parts := m.parts.set idx partObject' }
          appendTail m' idx
where
  /-- The tail block of `append`: if the part became `available` and the
  source buffer exists, is open, and idle, append it and mark it `added`. -/
  appendTail (m : MediaState) (idx : Nat) : MediaState × Option JsError :=
    match m.parts.get? idx with
    | none => (m, some .typeError)
    | some p =>
      if p.status = .available ∧ m.hasSourceBuffer ∧ m.mediaSourceOpen ∧
          ¬ m.sourceBufferUpdating then
        ({ m with parts := m.parts.set idx { p with status := .added } }, none)
      else
        (m, none)

/-! ### Peer (`src/peer.js`, `src/datachannel.js`, `src/signal.js`)

`this.connections` is a JS `Map` from remote peer id (a string; the
signaling link uses the key `'signal'`) to a connection object; only the
`status` field of a connection matters to the embedded code, so the map is
an association list `List (String × ConnStatus)` (JS `Map` keys are
unique; theorems that need this take a `Nodup` hypothesis). -/

/-- Status of a `PeerConnection` / the signaling link. -/
inductive ConnStatus where
  | connecting
  | open
  | close
deriving DecidableEq, Repr

/-- The on-wire message envelope (the `Message` typedef of `index.js`).
`to` is a `JsVal` because the source compares it both with `-1` (a number)
and with peer ids (strings) using `===`.  `ttl`, `forwardBy` and `route`
may be absent from a concrete message object, hence `Option`.  `data`
stands for the opaque payload. -/
structure Message where
  type : String
  /-- The `from` field (`from` is a Lean keyword). -/
  fromId : String
  /-- The `to` field (`to` is reserved by Mathlib). -/
  toId : JsVal
  ttl : Option Int := none
  forwardBy : Option (List String) := none
  route : Option (List String) := none
  data : Option String := none
deriving DecidableEq, Repr

/-- `messageIsValid` (`src/util.js`): `type`, `from` and `to` must be
present — always true in this embedding, where they are mandatory fields —
and messages of a forwardable type must also carry `ttl` and `forwardBy`. -/
def messageIsValid (m : Message) : Bool :=
  if m.type ∈ ["request-peer", "answer", "icecandidate", "offer"] then
    m.ttl.isSome && m.forwardBy.isSome
  else
    true

/-- The `forwardableTypes` list local to `Peer.prototype.send`. -/
def forwardableTypes : List String :=
  ["icecandidate", "request-peer", "offer", "answer"]

/-- An entry of the retry queue:
`this.queue.push({ message, callback, timeout, timestamp })`.
`callback` is an opaque callback name; `timeout` is `none` when the
`timeout` argument was absent or not a number (the only distinction
`processQueue` makes). -/
structure QueueEntry where
  message : Message
  callback : Option String := none
  timeout : Option Int := none
  timestamp : Int
deriving DecidableEq, Repr

/-- The slice of `Peer` state the embedded routines read. -/
structure PeerState where
  id : String
  connections : List (String × ConnStatus)
  ttl : Int := 3
deriving DecidableEq, Repr

/-- `connections.has(to) && connections.get(to).status` for a `JsVal`
destination: the map is keyed by strings, so a numeric `to` (e.g. the
broadcast sentinel `-1`) is never found. -/
def connGet (conns : List (String × ConnStatus)) : JsVal → Option ConnStatus
  | .str s => conns.lookup s
  | .num _ => none

/-- `Signal.prototype.send` (`src/signal.js`): `message.ttl = 0` and then
the JSON-serialized message goes over the websocket.  The result is the
message as transmitted. -/
def Signal.send (m : Message) : Message :=
  { m with ttl := some 0 }

/-- Result of `broadcast`: the ids of the connections the message was
handed to, in map iteration order, and the message given to the signaling
link, if any (already transformed by `Signal.send`). -/
structure BroadcastResult where
  targets : List String
  signalMsg : Option Message
deriving DecidableEq, Repr

/-- `broadcast(connections, message)` (`src/peer.js`):
`from = [message.from, ...message.forwardBy]`; hand the message to every
connection whose key is not `'signal'`, whose key is not in `from`, and
whose status is `'open'`; if no such target exists and the map has a
`'signal'` entry, give the message to the signaling link instead.
Spreading an absent `forwardBy` raises a `TypeError`. -/
def broadcast (conns : List (String × ConnStatus)) (m : Message) :
    Except JsError BroadcastResult :=
  match m.forwardBy with
  | none => .error .typeError
  | some fb =>
    let excluded := m.fromId :: fb
    let targets := (conns.filter (fun c =>
      c.1 ≠ "signal" && c.1 ∉ excluded && c.2 = ConnStatus.open)).map Prod.fst
    let signalMsg :=
      if targets = [] ∧ (conns.lookup "signal").isSome then
        some (Signal.send m)
      else
        none
    .ok ⟨targets, signalMsg⟩

/-- The observable effect of one call to `Peer.prototype.send`.
`requestPeerTo = some to` records that `this.requestPeer(message.to)` was
invoked (which recursively sends a fresh
`{type: 'request-peer', from: this.id, to, ttl: this.ttl, forwardBy: []}`
message; only the invocation is recorded here). -/
structure SendEffect where
  dispatched : Bool
  handedTo : Option (String × Message) := none
  broadcastTargets : List String := []
  signalMsg : Option Message := none
  enqueued : Option QueueEntry := none
  requestPeerTo : Option JsVal := none
deriving DecidableEq, Repr

/-- `Peer.prototype.send(message, timeout, callback)`.

The source begins with `if(to === this.id) { this.dispatchMessage(message) }`
immediately followed by `if(...)` — *not* `else if` — so the second chain
(direct connection / route / broadcast / enqueue-and-request-peer) runs
even for a self-addressed message.  The embedding keeps that fall-through:
`dispatched` records the first `if` and the rest of the effect records the
chain. -/
def Peer.send (p : PeerState) (m : Message) (timeout : Option Int)
    (callback : Option String) (now : Int) : Except JsError SendEffect :=
  if ¬ messageIsValid m then
    .error .invalidMessage
  else
    let dispatched := m.toId = JsVal.str p.id
    if connGet p.connections m.toId = some .open then
      match m.toId with
      | .str s => .ok { dispatched, handedTo := some (s, m) }
      | .num _ => .ok { dispatched }   -- unreachable: `connGet` on a number is `none`
    else
      match m.route with
      | some (hop :: rest) =>
        if (p.connections.lookup hop).isSome then
          -- `to = message.route.shift()` mutates the message before sending it
          .ok { dispatched, handedTo := some (hop, { m with route := some rest }) }
        else
          sendNoRoute p m timeout callback now dispatched
      | _ => sendNoRoute p m timeout callback now dispatched
where
  /-- The last two branches of the chain: broadcast a forwardable message,
  enqueue anything else and request a connection to its destination. -/
  sendNoRoute (p : PeerState) (m : Message) (timeout : Option Int)
      (callback : Option String) (now : Int) (dispatched : Bool) :
      Except JsError SendEffect :=
    if m.type ∈ forwardableTypes then
      match broadcast p.connections m with
      | .ok r => .ok { dispatched, broadcastTargets := r.targets,
                       signalMsg := r.signalMsg }
      | .error e => .error e
    else
      .ok { dispatched,
            enqueued := some ⟨m, callback, timeout, now⟩,
            requestPeerTo := some m.toId }

/-- `Peer.prototype.forward(message)`: decrement `ttl`, push `this.id`
onto `forwardBy`, and `send` the mutated message.  (On a message without
`ttl`/`forwardBy` the source would compute `NaN` / throw on `push`;
modelled as a `TypeError`.) -/
def Peer.forward (p : PeerState) (m : Message) (now : Int) :
    Except JsError (Message × SendEffect) :=
  match m.ttl, m.forwardBy with
  | some t, some fb =>
    let m' := { m with ttl := some (t - 1), forwardBy := some (fb ++ [p.id]) }
    match Peer.send p m' none none now with
    | .ok eff => .ok (m', eff)
    | .error e => .error e
  | _, _ => .error .typeError

/-- Outcome of the datachannel `onmessage` handler. -/
inductive OnMessageResult where
  | dispatched (m : Message)
  | forwarded (m' : Message) (eff : SendEffect)
  | dropped
  | errored (e : JsError)
deriving DecidableEq, Repr

/-- `onmessage` (`src/datachannel.js`):
`if(-1 === message.to || peer.id === message.to) dispatchMessage(message)
 else if(message.ttl > 0) peer.forward(message)`.
An absent `ttl` compares as not `> 0`. -/
def onmessage (p : PeerState) (m : Message) (now : Int) : OnMessageResult :=
  if m.toId = JsVal.num (-1) ∨ m.toId = JsVal.str p.id then
    .dispatched m
  else if (match m.ttl with | some t => 0 < t | none => false : Bool) then
    match Peer.forward p m now with
    | .ok (m', eff) => .forwarded m' eff
    | .error e => .errored e
  else
    .dropped

/-- `processQueue` result: messages re-sent over a now-open connection,
timed-out entries whose callback was executed, and the surviving queue. -/
structure ProcessResult where
  sent : List QueueEntry
  fired : List QueueEntry
  queue : List QueueEntry
deriving DecidableEq, Repr

/-- The first partition predicate of `processQueue`: the destination
connection exists and is `open`. -/
def deliverable (conns : List (String × ConnStatus)) (e : QueueEntry) : Bool :=
  connGet conns e.message.toId = some .open

/-- The second partition predicate of `processQueue`:
`elt.hasOwnProperty('timeout') && typeof elt.timeout === 'number' &&
 now - elt.timestamp > elt.timeout`. -/
def timedOut (now : Int) (e : QueueEntry) : Bool :=
  match e.timeout with
  | some t => t < now - e.timestamp
  | none => false

/-- `processQueue` (`src/peer.js`), one tick: partition the queue into
deliverable entries (re-sent via `this.send`, which hands them to the open
connection) and the rest; partition the rest into timed-out entries (whose
callbacks, when present, are executed once) and the entries kept as the
new queue. -/
def processQueue (conns : List (String × ConnStatus)) (now : Int)
    (queue : List QueueEntry) : ProcessResult :=
  let toSend := queue.filter (deliverable conns)
  let toAge := queue.filter (fun e => ! deliverable conns e)
  let toTimeout := toAge.filter (timedOut now)
  let toKeep := toAge.filter (fun e => ! timedOut now e)
  ⟨toSend, toTimeout.filter (fun e => e.callback.isSome), toKeep⟩

/-! ### GossipRPS (`src/extensions/gossipRPS.js`)

`GossipRPS` extends the base class `GossipAlgorithm`
(`src/extensions/gossipAlgo.js`, shipped inside the `media.js`
concatenation), which provides `selfDescriptor` and `randomSubview`.
JS numbers reach `genBuffer` as the fractional buffer sizes `C/2` and
`C/2 - 1`, modelled by `ℚ`; the option counts `C`, `H`, `S` themselves
are naturals (defaults `C=10, H=0, S=0`). -/

/-- A `NodeDescriptor`: `{id, age}`.  Extension-contributed fields are not
modelled; the embedded algorithms only read `id` and `age`, and compare
whole descriptors (ramda deep equality) only on views whose ids are
assumed distinct. -/
structure NodeDescriptor where
  id : String
  age : Int
deriving DecidableEq, Repr

/-- The `GossipRPS` options `{C, H, S}` (defaults `{C: 10, H: 0, S: 0}`). -/
structure GossipOpts where
  C : Nat := 10
  H : Nat := 0
  S : Nat := 0
deriving DecidableEq, Repr

/-- The per-node `GossipRPS` state the embedded members read. -/
structure GossipState where
  id : String
  opts : GossipOpts
deriving DecidableEq, Repr

/-- A shuffle oracle standing for `shuffleArray` (`util.js`, driven by
`Math.random`): theorems about randomised code take the hypothesis
`ShuffleOracle sh`, i.e. that every output is a permutation of the
input. -/
def ShuffleOracle (sh : List NodeDescriptor → List NodeDescriptor) : Prop :=
  ∀ l, (sh l).Perm l

/-- Helper for `dedupFirst`: drop elements already seen. -/
def dedupFirstAux (seen : List NodeDescriptor) :
    List NodeDescriptor → List NodeDescriptor
  | [] => []
  | x :: xs =>
    if x ∈ seen then
      dedupFirstAux seen xs
    else
      x :: dedupFirstAux (x :: seen) xs

/-- Remove duplicates keeping the *first* occurrence of each element, as
ramda set operations do. -/
def dedupFirst (l : List NodeDescriptor) : List NodeDescriptor :=
  dedupFirstAux [] l

/-- `R.union(as, bs)`: the deduplicated concatenation. -/
def rUnion (as bs : List NodeDescriptor) : List NodeDescriptor :=
  dedupFirst (as ++ bs)

/-- `R.difference(as, bs)`: elements of `as` not in `bs`, deduplicated. -/
def rDifference (as bs : List NodeDescriptor) : List NodeDescriptor :=
  dedupFirst (as.filter (fun x => x ∉ bs))

/-- The in-place JS sort `view.sort((a, b) => a.age - b.age)`: a stable
ascending sort by age (modelled with insertion sort; the theorems below
use only that the result is a permutation of the input). -/
def sortByAge (l : List NodeDescriptor) : List NodeDescriptor :=
  l.insertionSort (fun a b => a.age ≤ b.age)

/-- `view.slice(0, -H)`: for `H > 0` everything but the last `H` elements;
for `H = 0` the JS end index is `-0 = 0`, so the result is *empty*. -/
def jsHead (H : Nat) (l : List NodeDescriptor) : List NodeDescriptor :=
  if H = 0 then [] else l.take (l.length - H)

/-- `view.slice(-H)`: for `H > 0` the last `H` elements; for `H = 0` the
JS start index is `-0 = 0`, so the result is the *whole* list. -/
def jsTail (H : Nat) (l : List NodeDescriptor) : List NodeDescriptor :=
  if H = 0 then l else l.drop (l.length - H)

/-- `ToIntegerOrInfinity` applied to a slice argument: truncation toward
zero (so `-0.5` becomes `0`). -/
def jsTrunc (q : ℚ) : Int :=
  if q < 0 then -⌊-q⌋ else ⌊q⌋

/-- `GossipAlgorithm.prototype.randomSubview(size, view)`
(`src/extensions/gossipAlgo.js`): `shuffleArray(view).slice(0, size)`.
`slice` truncates `size` toward zero; a negative end index counts from
the end of the array. -/
def randomSubview (sh : List NodeDescriptor → List NodeDescriptor) (size : ℚ)
    (l : List NodeDescriptor) : List NodeDescriptor :=
  let shuffled := sh l
  let t := jsTrunc size
  if t < 0 then
    shuffled.take (shuffled.length - (-t).toNat)
  else
    shuffled.take t.toNat

/-- `this.selfDescriptor` as set by the `GossipAlgorithm` constructor
(`src/extensions/gossipAlgo.js`): `{ id: id, age: 0 }`. -/
def selfDescriptor (g : GossipState) : NodeDescriptor :=
  ⟨g.id, 0⟩

/-- `view.filter(elmt => elmt.id !== distantId)`: the view with the
remote peer's descriptor removed. -/
def filteredView (distantId : String) (view : List NodeDescriptor) :
    List NodeDescriptor :=
  view.filter (fun e => e.id != distantId)

/-- The inner `computeBuffer` closure of `genBuffer`: filter out
`distantId`; return the filtered view whole when its length is strictly
below the buffer size; otherwise sort by age, split into `head`/`tail`
around `H`, and extract the buffer from the head and, if needed, random
elements of the tail. -/
def computeBuffer (sh : List NodeDescriptor → List NodeDescriptor)
    (g : GossipState) (distantId : String) (view : List NodeDescriptor)
    (bufferSize : ℚ) : List NodeDescriptor :=
  let v := filteredView distantId view
  if (v.length : ℚ) < bufferSize then
    v
  else
    let sorted := sortByAge v
    let head := jsHead g.opts.H sorted
    let tail := jsTail g.opts.H sorted
    if bufferSize < (head.length : ℚ) then
      randomSubview sh bufferSize head
    else if bufferSize = (head.length : ℚ) then
      head
    else
      rUnion head (randomSubview sh (bufferSize - (head.length : ℚ)) tail)

/-- `GossipRPS.prototype.genBuffer(thread, distantId, view)`. -/
def genBuffer (sh : List NodeDescriptor → List NodeDescriptor)
    (g : GossipState) (thread : String) (distantId : String)
    (view : List NodeDescriptor) : List NodeDescriptor :=
  let defaultBufferSize : ℚ := (g.opts.C : ℚ) / 2
  if thread = "active" then
    computeBuffer sh g distantId view (defaultBufferSize - 1) ++
      [selfDescriptor g]
  else
    computeBuffer sh g distantId view defaultBufferSize

/-- One step of the merge loop of `mergeView`, for one received
descriptor: skip the node's own descriptor; otherwise
`findIndex(propEq('id', d.id), view)` and either push (`-1`) or replace
when strictly younger.  The find-then-set is rendered as a structural
recursion on the view: replace (or keep) at the *first* position whose id
matches, append at the end when none does. -/
def replaceOrAppend (d : NodeDescriptor) :
    List NodeDescriptor → List NodeDescriptor
  | [] => [d]
  | e :: es =>
    if e.id = d.id then
      (if d.age < e.age then d else e) :: es
    else
      e :: replaceOrAppend d es

/-- The body of the `recvBuffer.forEach` loop of `mergeView`. -/
def mergeStep (selfId : String) (view : List NodeDescriptor)
    (d : NodeDescriptor) : List NodeDescriptor :=
  if d.id = selfId then view else replaceOrAppend d view

/-- `GossipRPS.prototype.mergeView(recvBuffer, sentBuffer, view)`:
merge the received buffer into the view keeping, per id, the strictly
younger descriptor; sort by age and drop up to `min(H, len − C)` of the
oldest; remove up to `min(S, len − C)` shuffled elements of the sent
buffer (`R.difference`); if still above `C`, keep `C` elements of a
shuffled copy. -/
def mergeView (sh : List NodeDescriptor → List NodeDescriptor)
    (g : GossipState) (recvBuffer sentBuffer view : List NodeDescriptor) :
    List NodeDescriptor :=
  let v1 := recvBuffer.foldl (mergeStep g.id) view
  let n1 := min g.opts.H (v1.length - g.opts.C)
  let v2 := (sortByAge v1).take (v1.length - n1)
  let n2 := min g.opts.S (v2.length - g.opts.C)
  let swapped := (sh sentBuffer).take n2
  let v3 := rDifference v2 swapped
  if g.opts.C < v3.length then
    (sh v3).drop (v3.length - g.opts.C)
  else
    v3

/-! ### Concrete fixtures used by the scenario theorems -/

/-- A peer `p` with no connections (the signaling entry already removed,
as in the repository tests). -/
def selfLoopPeer : PeerState :=
  { id := "p", connections := [] }

/-- A valid, non-forwardable message addressed to `selfLoopPeer` itself. -/
def selfAddressedMessage : Message :=
  { type := "data", fromId := "q", toId := .str "p",
    ttl := some 3, forwardBy := some [] }

/-- Line topology A↔B, B↔C: peer A. -/
def peerA : PeerState := { id := "A", connections := [("B", .open)] }

/-- Line topology A↔B, B↔C: peer B. -/
def peerB : PeerState :=
  { id := "B", connections := [("A", .open), ("C", .open)] }

/-- Line topology A↔B, B↔C: peer C. -/
def peerC : PeerState := { id := "C", connections := [("B", .open)] }

/-- `request-peer{from: A, to: C, ttl: 3, forwardBy: []}`. -/
def requestAtoC : Message :=
  { type := "request-peer", fromId := "A", toId := .str "C",
    ttl := some 3, forwardBy := some [] }

/-- `requestAtoC` as it leaves B: `ttl` decremented, `forwardBy = ["B"]`. -/
def requestAtoCviaB : Message :=
  { requestAtoC with ttl := some 2, forwardBy := some ["B"] }

/-- A retry-queue entry enqueued at `t = 0` with `timeout = 1500`. -/
def entry1500 : QueueEntry :=
  { message := { type := "queuetest", fromId := "p", toId := .str "a" },
    callback := some "cb", timeout := some 1500, timestamp := 0 }

/-- A media with 10 parts where exactly `{0, 3, 4, 7}` are `added` and the
rest are `needed` (the `peerHasPart` scenario of the spec and of
`test/media.test.js`). -/
def mediaTenParts : MediaState :=
  { parts := (List.range 10).map (fun i =>
      { partNumber := (i : Int),
        status := if i ∈ [0, 3, 4, 7] then .added else .needed }) }

/-- A media whose part 0 is `available` with bytes `[7, 9]` (the sender
side of the chunk round trip). -/
def seederMedia : MediaState :=
  { parts := [{ partNumber := 0, status := .available, part := some [7, 9] }] }

/-- A media whose part 0 is `pending` (the receiver side of the chunk
round trip). -/
def receiverMedia : MediaState :=
  { parts := [{ partNumber := 0, status := .pending }] }

/-- A media whose part 0 is `needed` (not `pending`). -/
def notPendingMedia : MediaState :=
  { parts := [{ partNumber := 0, status := .needed }] }

/-- A gossip node with id `"self"` and default options `C=10, H=0, S=0`. -/
def gossipSelf : GossipState := { id := "self", opts := {} }

/-- A gossip node with id `"self"` and the degenerate option `C = 1`. -/
def gossipOne : GossipState := { id := "self", opts := { C := 1 } }

/-- The seven-descriptor view `{a:1, …, g:7}` of the RPS-bounds scenario. -/
def viewSeven : List NodeDescriptor :=
  [⟨"a", 1⟩, ⟨"b", 2⟩, ⟨"c", 3⟩, ⟨"d", 4⟩, ⟨"e", 5⟩, ⟨"f", 6⟩, ⟨"g", 7⟩]

/-! ## Theorems -/

/-- **C10.** `MessageEmitter#removeAllListeners` with a defined
`messageType` never removes a listener: when the type has a listener set
the map is returned unchanged, and when it has none the call raises a
`TypeError` (it does not terminate normally); only the zero-argument call
clears the map. -/
theorem removeAllListeners_never_removes (lm : ListenerMap) (t : String) :
    ((lm.lookup t).isSome → removeAllListeners lm (some t) = .ok lm) ∧
    ((lm.lookup t).isNone →
      removeAllListeners lm (some t) = .error .typeError) ∧
    removeAllListeners lm none = .ok [] := by
  refine ⟨fun h => ?_, fun h => ?_, rfl⟩
  · simp [removeAllListeners, h]
  · simp [removeAllListeners, Option.isNone_iff_eq_none.mp h]

/-- Witness for `removeAllListeners_never_removes` at a one-entry map. -/
theorem removeAllListeners_never_removes_witness :
    removeAllListeners [("a", ["l1"])] (some "a") = .ok [("a", ["l1"])] ∧
    removeAllListeners [("a", ["l1"])] (some "b") = .error .typeError :=
  ⟨(removeAllListeners_never_removes [("a", ["l1"])] "a").1 (by decide),
   (removeAllListeners_never_removes [("a", ["l1"])] "b").2.1 (by decide)⟩

/-- **C9** (code bug).  On the ten-part media with `{0,3,4,7}` `added`,
`peerHasPart` answers correctly for in-range part numbers, but for the
out-of-range arguments `-1` and `10` it does *not* return `false`: it
raises a `TypeError` (reading `.status` of `undefined`), contradicting the
claim and the repository's own test (`media.test.js` expects `false`). -/
theorem peerHasPart_throws_out_of_range :
    peerHasPart mediaTenParts (-1) = .error .typeError ∧
    peerHasPart mediaTenParts 10 = .error .typeError ∧
    (∀ n : Nat, n < 10 →
      (peerHasPart mediaTenParts n = .ok true ↔ n ∈ [0, 3, 4, 7])) := by
  decide

/-- **C1** (code bug).  `Peer.prototype.send` on a valid non-forwardable
message addressed to the peer itself: the message *is* dispatched locally,
but — because the `to === this.id` branch does not terminate the dispatch
chain (missing `else`) — the same call also appends the message to the
retry queue and invokes `requestPeer` targeting the peer's own id,
contradicting "applies no other rule". -/
theorem send_self_falls_through :
    Peer.send selfLoopPeer selfAddressedMessage none none 0 =
      .ok { dispatched := true,
            enqueued := some ⟨selfAddressedMessage, none, none, 0⟩,
            requestPeerTo := some (.str "p") } := by
  decide

/-- **C8.** `Media#append` on a part whose status is not `pending` yields
the `Unexpected part has been received` error and leaves the media state
untouched (the `throw` precedes every mutation): no chunk is stored, no
part buffer is written, no status changes. -/
theorem append_rejects_non_pending (m : MediaState) (number : JsVal)
    (buffer : Bytes) (idx : Nat) (p : MediaPart)
    (hidx : parseArrayIndex
      ((splitOnColon (jsToString number).toList).headD []) = some idx)
    (hp : m.parts.get? idx = some p) (hst : p.status ≠ .pending) :
    Media.append m number buffer = (m, some .unexpectedPart) := by
  simp only [Media.append, hidx, hp]
  simp [hst]

/-- Witness for `append_rejects_non_pending`: a `needed` part. -/
theorem append_rejects_non_pending_witness :
    Media.append notPendingMedia (.str "0") [1] =
      (notPendingMedia, some .unexpectedPart) :=
  append_rejects_non_pending notPendingMedia (.str "0") [1] 0
    { partNumber := 0, status := .needed } (by decide) (by decide) (by decide)

/-- **C7** (code bug).  `getChunkedPart` does split a 2-byte part into
`ceil(2/1) = 2` one-byte chunks, but delivering both chunks to
`Media#append` never reassembles the part: the completeness test
`partObject.chunks.length === numberOfChunks` strictly compares the
number `chunks.length` with the *string* produced by
`String(number).split(':')`, which is always false, so the part stays
`pending` with no `part` buffer, contradicting the round-trip claim. -/
theorem append_chunked_never_completes :
    getChunkedPart seederMedia 1 0 = .ok [[7], [9]] ∧
    ((Media.append
        (Media.append receiverMedia (.str "0:0:2") [7]).1
        (.str "0:1:2") [9]).1.parts.get? 0 =
      some { partNumber := 0, status := .pending, part := none,
             chunks := some [some [7], some [9]] }) := by
  decide

/-- **C4.** A retry-queue entry is removed by a `processQueue` tick iff it
was delivered (destination connection `open`, message sent) or timed out
(`now − timestamp > timeout`, callback executed); an entry without a
numeric timeout is kept whenever undeliverable; and in the literal
scenario (tick 1000/2000, `timeout = 1500`) the queue has length 1 after
the first tick and length 0 after the second, with the callback fired in
the second tick only and hence exactly once. -/
theorem processQueue_removes_iff (conns : List (String × ConnStatus))
    (now : Int) (queue : List QueueEntry) :
    (∀ e ∈ queue,
      (e ∉ (processQueue conns now queue).queue ↔
        deliverable conns e ∨ timedOut now e)) ∧
    (∀ e, e ∈ (processQueue conns now queue).sent ↔
      e ∈ queue ∧ deliverable conns e) ∧
    (∀ e, e ∈ (processQueue conns now queue).fired ↔
      e ∈ queue ∧ ¬ deliverable conns e ∧ timedOut now e ∧
        e.callback.isSome) ∧
    (∀ e ∈ queue, e.timeout = none → ¬ deliverable conns e →
      e ∈ (processQueue conns now queue).queue) ∧
    ((processQueue [] 1000 [entry1500]).queue = [entry1500] ∧
     (processQueue [] 1000 [entry1500]).fired = [] ∧
     (processQueue [] 2000 (processQueue [] 1000 [entry1500]).queue).queue
       = [] ∧
     (processQueue [] 2000 (processQueue [] 1000 [entry1500]).queue).fired
       = [entry1500]) := by
  refine ⟨fun e he => ?_, fun e => ?_, fun e => ?_, fun e he ht hd => ?_,
    by decide⟩
  · have hmem : e ∈ (processQueue conns now queue).queue ↔
        ¬ deliverable conns e ∧ ¬ timedOut now e := by
      simp only [processQueue, List.mem_filter, Bool.not_eq_true',
        Bool.not_eq_true]
      tauto
    rw [not_congr hmem]
    tauto
  · simp [processQueue, List.mem_filter]
  · simp only [processQueue, List.mem_filter, Bool.not_eq_true',
      Bool.not_eq_true]
    tauto
  · simp only [processQueue, List.mem_filter, Bool.not_eq_true']
    exact ⟨⟨he, by simpa using hd⟩, by simp [timedOut, ht]⟩

/-- Witness for `processQueue_removes_iff` at the scenario entry. -/
theorem processQueue_removes_iff_witness :
    (entry1500 ∉ (processQueue [] 2000 [entry1500]).queue ↔
      deliverable [] entry1500 ∨ timedOut 2000 entry1500) ∧
    (entry1500 ∈ (processQueue [] 2000 [entry1500]).fired ↔
      entry1500 ∈ [entry1500] ∧ ¬ deliverable [] entry1500 ∧
        timedOut 2000 entry1500 ∧ entry1500.callback.isSome) :=
  ⟨(processQueue_removes_iff [] 2000 [entry1500]).1 entry1500 (by decide),
   (processQueue_removes_iff [] 2000 [entry1500]).2.2.1 entry1500⟩

/-- **C3.** `broadcast` hands the message to exactly the open connections
that are not the signaling link and whose id is neither `message.from`
nor in `message.forwardBy`; the signaling link receives the message iff
that target set is empty and a signaling entry exists; and everything the
signaling link transmits has `ttl` zeroed by `Signal.prototype.send`. -/
theorem broadcast_exact_targets (conns : List (String × ConnStatus))
    (m : Message) (fb : List String) (hfb : m.forwardBy = some fb) :
    ∃ r, broadcast conns m = .ok r ∧
      (∀ p, p ∈ r.targets ↔
        ∃ st, (p, st) ∈ conns ∧ st = ConnStatus.open ∧ p ≠ "signal" ∧
          p ∉ m.fromId :: fb) ∧
      (r.signalMsg.isSome ↔
        r.targets = [] ∧ (conns.lookup "signal").isSome) ∧
      (∀ mm, r.signalMsg = some mm → mm = Signal.send m) ∧
      (∀ msg : Message, (Signal.send msg).ttl = some 0) := by
  refine ⟨_, by rw [broadcast, hfb], ?_, ?_, ?_, fun _ => rfl⟩
  · intro p
    simp only [List.mem_map, List.mem_filter, Bool.and_eq_true,
      decide_eq_true_eq]
    constructor
    · rintro ⟨⟨q, st⟩, ⟨hmem, ⟨hsig, hex⟩, hop⟩, rfl⟩
      exact ⟨st, hmem, hop, hsig, hex⟩
    · rintro ⟨st, hmem, hop, hsig, hex⟩
      exact ⟨(p, st), ⟨hmem, ⟨hsig, hex⟩, hop⟩, rfl⟩
  · dsimp only
    split
    · rename_i hcond
      exact iff_of_true rfl hcond
    · rename_i hcond
      exact iff_of_false (by simp) hcond
  · intro mm h
    dsimp only at h
    split at h
    · injection h with h
      exact h.symm
    · exact Option.noConfusion h

/-- Witness for `broadcast_exact_targets` on the line-topology peer B. -/
theorem broadcast_exact_targets_witness :
    ∃ r, broadcast peerB.connections requestAtoC = .ok r ∧
      (∀ p, p ∈ r.targets ↔
        ∃ st, (p, st) ∈ peerB.connections ∧ st = ConnStatus.open ∧
          p ≠ "signal" ∧ p ∉ requestAtoC.fromId :: []) ∧
      (r.signalMsg.isSome ↔
        r.targets = [] ∧ (peerB.connections.lookup "signal").isSome) ∧
      (∀ mm, r.signalMsg = some mm → mm = Signal.send requestAtoC) ∧
      (∀ msg : Message, (Signal.send msg).ttl = some 0) :=
  broadcast_exact_targets peerB.connections requestAtoC [] rfl

/-- **C2.** Forwarding decrements `ttl` by exactly one and appends the
forwarder's id to `forwardBy` before re-sending; in the A–B–C line
topology the `request-peer` sent by A with `ttl 3, forwardBy []` is
broadcast to B, forwarded by B to C with `ttl 2, forwardBy ["B"]`, and
dispatched at C with exactly those values; and a received message with
`ttl = 0` addressed neither to self nor to the broadcast sentinel is
dropped, not forwarded. -/
theorem forward_line_topology :
    (∀ (p : PeerState) (m m' : Message) (eff : SendEffect) (now t : Int)
        (fb : List String), m.ttl = some t → m.forwardBy = some fb →
      Peer.forward p m now = .ok (m', eff) →
      m' = { m with ttl := some (t - 1),
                    forwardBy := some (fb ++ [p.id]) }) ∧
    (Peer.send peerA requestAtoC none none 0 =
        .ok { dispatched := false, broadcastTargets := ["B"] } ∧
      onmessage peerB requestAtoC 0 =
        .forwarded requestAtoCviaB
          { dispatched := false,
            handedTo := some ("C", requestAtoCviaB) } ∧
      requestAtoCviaB.ttl = some 2 ∧
      requestAtoCviaB.forwardBy = some ["B"] ∧
      onmessage peerC requestAtoCviaB 0 = .dispatched requestAtoCviaB) ∧
    (∀ (p : PeerState) (m : Message) (now : Int),
      m.toId ≠ JsVal.num (-1) → m.toId ≠ JsVal.str p.id →
      m.ttl = some 0 → onmessage p m now = .dropped) := by
  refine ⟨?_, by decide, ?_⟩
  · intro p m m' eff now t fb ht hfb h
    simp only [Peer.forward, ht, hfb] at h
    split at h
    · injection h with h
      exact (congrArg Prod.fst h).symm
    · exact Except.noConfusion h
  · intro p m now h1 h2 ht
    rw [onmessage, if_neg (by simp [h1, h2]), ht]
    simp

/-- Witness for `forward_line_topology` at B's forwarding step and a
dead`ttl = 0` message. -/
theorem forward_line_topology_witness :
    requestAtoCviaB =
      { requestAtoC with ttl := some (3 - 1),
                         forwardBy := some ([] ++ ["B"]) } ∧
    onmessage peerC { requestAtoC with toId := .str "Z", ttl := some 0 } 0
      = .dropped :=
  ⟨forward_line_topology.1 peerB requestAtoC requestAtoCviaB
      { dispatched := false, handedTo := some ("C", requestAtoCviaB) }
      0 3 [] rfl rfl (by decide),
   forward_line_topology.2.2 peerC
      { requestAtoC with toId := .str "Z", ttl := some 0 } 0
      (by decide) (by decide) rfl⟩

/-! ### Helper lemmas for the gossip theorems -/

theorem dedupFirstAux_sublist (l : List NodeDescriptor) :
    ∀ seen, List.Sublist (dedupFirstAux seen l) l := by
  induction l with
  | nil => intro seen; simp [dedupFirstAux]
  | cons x xs ih =>
    intro seen
    rw [dedupFirstAux]
    split
    · exact (ih seen).trans (List.sublist_cons_self x xs)
    · exact (ih (x :: seen)).cons₂ x

theorem dedupFirst_sublist (l : List NodeDescriptor) :
    List.Sublist (dedupFirst l) l :=
  dedupFirstAux_sublist l []

theorem dedupFirst_length_le (l : List NodeDescriptor) :
    (dedupFirst l).length ≤ l.length :=
  (dedupFirst_sublist l).length_le

theorem dedupFirstAux_eq_of_nodup (l : List NodeDescriptor) (hl : l.Nodup) :
    ∀ seen, (∀ x ∈ l, x ∉ seen) → dedupFirstAux seen l = l := by
  induction l with
  | nil => intro seen _; rfl
  | cons x xs ih =>
    intro seen hseen
    rw [dedupFirstAux, if_neg (hseen x (List.mem_cons_self x xs))]
    rw [ih hl.of_cons (x :: seen) ?_]
    intro y hy
    simp only [List.mem_cons, not_or]
    exact ⟨fun h => (List.nodup_cons.mp hl).1 (h ▸ hy),
      hseen y (List.mem_cons_of_mem x hy)⟩

theorem dedupFirst_eq_of_nodup (l : List NodeDescriptor) (hl : l.Nodup) :
    dedupFirst l = l :=
  dedupFirstAux_eq_of_nodup l hl [] (by simp)

theorem mem_dedupFirstAux {x : NodeDescriptor} :
    ∀ (l seen : List NodeDescriptor),
      x ∈ dedupFirstAux seen l ↔ x ∈ l ∧ x ∉ seen := by
  intro l
  induction l with
  | nil => intro seen; simp [dedupFirstAux]
  | cons y ys ih =>
    intro seen
    rw [dedupFirstAux]
    split
    · rename_i hy
      simp only [List.mem_cons, ih seen]
      constructor
      · rintro ⟨h1, h2⟩
        exact ⟨Or.inr h1, h2⟩
      · rintro ⟨h1 | h1, h2⟩
        · exact absurd (show x ∈ seen by rw [h1]; exact hy) h2
        · exact ⟨h1, h2⟩
    · rename_i hy
      simp only [List.mem_cons, ih (y :: seen), not_or]
      constructor
      · rintro (rfl | ⟨h1, h2, h3⟩)
        · exact ⟨Or.inl rfl, hy⟩
        · exact ⟨Or.inr h1, h3⟩
      · rintro ⟨h1 | h1, h2⟩
        · exact Or.inl h1
        · by_cases hxy : x = y
          · exact Or.inl hxy
          · exact Or.inr ⟨h1, hxy, h2⟩

theorem mem_dedupFirst {x : NodeDescriptor} {l : List NodeDescriptor} :
    x ∈ dedupFirst l ↔ x ∈ l := by
  rw [dedupFirst, mem_dedupFirstAux]
  simp

theorem sortByAge_perm (l : List NodeDescriptor) : (sortByAge l).Perm l :=
  List.perm_insertionSort _ l

theorem jsHead_append_jsTail (H : Nat) (l : List NodeDescriptor) :
    jsHead H l ++ jsTail H l = l := by
  rw [jsHead, jsTail]
  split
  · rfl
  · exact List.take_append_drop _ l

theorem jsHead_length_le (H : Nat) (l : List NodeDescriptor) :
    (jsHead H l).length ≤ l.length := by
  rw [jsHead]
  split
  · simp
  · exact (l.take_sublist _).length_le

theorem floorToNat_le {q : ℚ} (hq : 0 ≤ q) : ((⌊q⌋.toNat : ℕ) : ℚ) ≤ q := by
  have h0 : (0 : ℤ) ≤ ⌊q⌋ := Int.floor_nonneg.mpr hq
  calc ((⌊q⌋.toNat : ℚ)) = ((⌊q⌋.toNat : ℤ) : ℚ) := by push_cast; ring
    _ = ((⌊q⌋ : ℤ) : ℚ) := by rw [Int.toNat_of_nonneg h0]
    _ ≤ q := Int.floor_le q

theorem floorToNat_natCast (n : Nat) : (⌊(n : ℚ)⌋).toNat = n := by
  rw [Int.floor_natCast]
  rfl

theorem randomSubview_nonneg (sh : List NodeDescriptor → List NodeDescriptor)
    {q : ℚ} (hq : 0 ≤ q) (l : List NodeDescriptor) :
    randomSubview sh q l = (sh l).take ⌊q⌋.toNat := by
  rw [randomSubview, jsTrunc, if_neg (not_lt.mpr hq),
    if_neg (not_lt.mpr (Int.floor_nonneg.mpr hq))]

theorem mem_randomSubview {sh : List NodeDescriptor → List NodeDescriptor}
    (hsh : ShuffleOracle sh) {q : ℚ} {l : List NodeDescriptor}
    {x : NodeDescriptor} (hx : x ∈ randomSubview sh q l) : x ∈ l := by
  rw [randomSubview] at hx
  split at hx <;>
    exact (hsh l).subset ((List.take_sublist _ _).subset hx)

theorem length_randomSubview_le
    {sh : List NodeDescriptor → List NodeDescriptor} {q : ℚ} (hq : 0 ≤ q)
    (l : List NodeDescriptor) :
    ((randomSubview sh q l).length : ℚ) ≤ q := by
  rw [randomSubview_nonneg sh hq l, List.length_take]
  calc ((min ⌊q⌋.toNat (sh l).length : ℕ) : ℚ)
      ≤ ((⌊q⌋.toNat : ℕ) : ℚ) := by exact_mod_cast min_le_left _ _
    _ ≤ q := floorToNat_le hq

theorem mem_filteredView {d : NodeDescriptor} {distantId : String}
    {view : List NodeDescriptor} (h : d ∈ filteredView distantId view) :
    d ∈ view ∧ d.id ≠ distantId := by
  rw [filteredView, List.mem_filter] at h
  exact ⟨h.1, by simpa using h.2⟩

theorem mem_replaceOrAppend {x d : NodeDescriptor}
    {v : List NodeDescriptor} (h : x ∈ replaceOrAppend d v) :
    x = d ∨ x ∈ v := by
  induction v with
  | nil => simpa [replaceOrAppend] using h
  | cons e es ih =>
    rw [replaceOrAppend] at h
    split at h
    · rcases List.mem_cons.mp h with h | h
      · split at h
        · exact Or.inl h
        · exact Or.inr (h ▸ List.mem_cons_self e es)
      · exact Or.inr (List.mem_cons_of_mem e h)
    · rcases List.mem_cons.mp h with h | h
      · exact Or.inr (h ▸ List.mem_cons_self e es)
      · rcases ih h with h | h
        · exact Or.inl h
        · exact Or.inr (List.mem_cons_of_mem e h)

theorem mem_replaceOrAppend_of_ne {x d : NodeDescriptor}
    {v : List NodeDescriptor} (hx : x ∈ v) (hne : x.id ≠ d.id) :
    x ∈ replaceOrAppend d v := by
  induction v with
  | nil => cases hx
  | cons e es ih =>
    rw [replaceOrAppend]
    split
    · rcases List.mem_cons.mp hx with h | h
      · exact absurd (h ▸ (by assumption : e.id = d.id)) hne
      · exact List.mem_cons_of_mem _ h
    · rcases List.mem_cons.mp hx with h | h
      · exact h ▸ List.mem_cons_self e _
      · exact List.mem_cons_of_mem e (ih h)

theorem replaceOrAppend_ids_nodup {d : NodeDescriptor}
    {v : List NodeDescriptor}
    (h : (v.map (fun e => e.id)).Nodup) :
    ((replaceOrAppend d v).map (fun e => e.id)).Nodup := by
  induction v with
  | nil => simp [replaceOrAppend]
  | cons e es ih =>
    rw [List.map_cons, List.nodup_cons] at h
    rw [replaceOrAppend]
    split
    · rename_i heq
      rw [List.map_cons, List.nodup_cons]
      refine ⟨?_, h.2⟩
      split
      · exact fun hc => h.1 ((heq ▸ rfl : d.id = e.id) ▸ hc)
      · exact h.1
    · rename_i hne
      rw [List.map_cons, List.nodup_cons]
      refine ⟨?_, ih h.2⟩
      intro hc
      rcases List.mem_map.mp hc with ⟨y, hy, hyid⟩
      rcases mem_replaceOrAppend hy with h' | h'
      · exact hne (hyid ▸ h' ▸ rfl)
      · exact h.1 (List.mem_map.mpr ⟨y, h', hyid⟩)

theorem winner_mem_replaceOrAppend {d w : NodeDescriptor}
    {v : List NodeDescriptor} (hn : (v.map (fun e => e.id)).Nodup)
    (hw : w ∈ v) (hwd : w.id = d.id) :
    (if d.age < w.age then d else w) ∈ replaceOrAppend d v := by
  induction v with
  | nil => cases hw
  | cons e es ih =>
    rw [List.map_cons, List.nodup_cons] at hn
    rw [replaceOrAppend]
    split
    · rename_i heq
      have hwe : w = e := by
        rcases List.mem_cons.mp hw with h | h
        · exact h
        · exact absurd (List.mem_map.mpr ⟨w, h, (hwd.trans heq.symm)⟩) hn.1
      rw [hwe]
      exact List.mem_cons_self _ _
    · rename_i hne
      have hwe : w ≠ e := fun hc => hne ((hc ▸ hwd : e.id = d.id))
      have hwes : w ∈ es := (List.mem_cons.mp hw).resolve_left hwe
      exact List.mem_cons_of_mem e (ih hn.2 hwes)

theorem replaceOrAppend_only_winner {d w x : NodeDescriptor}
    {v : List NodeDescriptor} (hn : (v.map (fun e => e.id)).Nodup)
    (hw : w ∈ v) (hwd : w.id = d.id)
    (hx : x ∈ replaceOrAppend d v) (hxid : x.id = d.id) :
    x = if d.age < w.age then d else w := by
  induction v with
  | nil => cases hw
  | cons e es ih =>
    rw [List.map_cons, List.nodup_cons] at hn
    rw [replaceOrAppend] at hx
    split at hx
    · rename_i heq
      have hwe : w = e := by
        rcases List.mem_cons.mp hw with h | h
        · exact h
        · exact absurd (List.mem_map.mpr ⟨w, h, (hwd.trans heq.symm)⟩) hn.1
      rcases List.mem_cons.mp hx with h | h
      · rw [hwe]; exact h
      · exact absurd (List.mem_map.mpr ⟨x, h, hxid.trans heq.symm⟩)
          (hwe ▸ hn.1)
    · rename_i hne
      have hwe : w ≠ e := fun hc => hne ((hc ▸ hwd : e.id = d.id))
      have hwes : w ∈ es := (List.mem_cons.mp hw).resolve_left hwe
      rcases List.mem_cons.mp hx with h | h
      · exact absurd (h ▸ hxid : e.id = d.id) hne
      · exact ih hn.2 hwes h

theorem mergeStep_ids_nodup {s : String} {v : List NodeDescriptor}
    {d : NodeDescriptor} (h : (v.map (fun e => e.id)).Nodup) :
    ((mergeStep s v d).map (fun e => e.id)).Nodup := by
  rw [mergeStep]
  split
  · exact h
  · exact replaceOrAppend_ids_nodup h

theorem foldl_mergeStep_ids_nodup {s : String}
    (recv : List NodeDescriptor) (v : List NodeDescriptor)
    (h : (v.map (fun e => e.id)).Nodup) :
    (((recv.foldl (mergeStep s) v)).map (fun e => e.id)).Nodup := by
  induction recv generalizing v with
  | nil => exact h
  | cons d ds ih => exact ih _ (mergeStep_ids_nodup h)

theorem mem_mergeStep {s : String} {v : List NodeDescriptor}
    {d x : NodeDescriptor} (h : x ∈ mergeStep s v d) : x = d ∨ x ∈ v := by
  rw [mergeStep] at h
  split at h
  · exact Or.inr h
  · exact mem_replaceOrAppend h

theorem foldl_mergeStep_self_absent {s : String}
    (recv : List NodeDescriptor) (v : List NodeDescriptor)
    (h : ∀ x ∈ v, x.id ≠ s) :
    ∀ x ∈ recv.foldl (mergeStep s) v, x.id ≠ s := by
  induction recv generalizing v with
  | nil => exact h
  | cons d ds ih =>
    refine ih _ (fun x hx => ?_)
    rw [mergeStep] at hx
    split at hx
    · exact h x hx
    · rename_i hds
      rcases mem_replaceOrAppend hx with h' | h'
      · exact h' ▸ hds
      · exact h x h'

/-- The merge loop tracks, for a given id `i`, a unique current
descriptor `w` present in the view. -/
def Tracks (i : String) (w : NodeDescriptor)
    (v : List NodeDescriptor) : Prop :=
  (v.map (fun e => e.id)).Nodup ∧ w ∈ v ∧ w.id = i

theorem tracks_mergeStep_other {s i : String} {w d : NodeDescriptor}
    {v : List NodeDescriptor} (ht : Tracks i w v) (hd : d.id ≠ i) :
    Tracks i w (mergeStep s v d) := by
  obtain ⟨hn, hw, hwi⟩ := ht
  rw [mergeStep]
  split
  · exact ⟨hn, hw, hwi⟩
  · exact ⟨replaceOrAppend_ids_nodup hn,
      mem_replaceOrAppend_of_ne hw (fun hc => hd (hwi ▸ hc ▸ rfl)), hwi⟩

theorem tracks_mergeStep_winner {s i : String} {w d : NodeDescriptor}
    {v : List NodeDescriptor} (ht : Tracks i w v) (hd : d.id = i)
    (hs : i ≠ s) :
    Tracks i (if d.age < w.age then d else w) (mergeStep s v d) := by
  obtain ⟨hn, hw, hwi⟩ := ht
  rw [mergeStep, if_neg (fun hc => hs (hd ▸ hc))]
  refine ⟨replaceOrAppend_ids_nodup hn,
    winner_mem_replaceOrAppend hn hw (hwi.trans hd.symm), ?_⟩
  split
  · exact hd
  · exact hwi

theorem tracks_foldl_other {s i : String} {w : NodeDescriptor}
    (l : List NodeDescriptor) (v : List NodeDescriptor)
    (hl : ∀ d ∈ l, d.id ≠ i) (ht : Tracks i w v) :
    Tracks i w (l.foldl (mergeStep s) v) := by
  induction l generalizing v with
  | nil => exact ht
  | cons d ds ih =>
    exact ih _ (fun x hx => hl x (List.mem_cons_of_mem d hx))
      (tracks_mergeStep_other ht (hl d (List.mem_cons_self d ds)))

/-- With duplicate-free ids, two members sharing an id are equal. -/
theorem eq_of_ids_nodup {x y : NodeDescriptor} {v : List NodeDescriptor}
    (hn : (v.map (fun e => e.id)).Nodup) (hx : x ∈ v) (hy : y ∈ v)
    (hid : x.id = y.id) : x = y := by
  induction v with
  | nil => cases hx
  | cons e es ih =>
    rw [List.map_cons, List.nodup_cons] at hn
    rcases List.mem_cons.mp hx with hx' | hx' <;>
      rcases List.mem_cons.mp hy with hy' | hy'
    · exact hx'.trans hy'.symm
    · exact absurd (List.mem_map.mpr ⟨y, hy', (hid ▸ hx' ▸ rfl)⟩) hn.1
    · exact absurd (List.mem_map.mpr ⟨x, hx', (hid ▸ hy' ▸ rfl : x.id = e.id)⟩)
        hn.1
    · exact ih hn.2 hx' hy'

/-- After merging a received buffer with duplicate-free ids, the
surviving descriptor for an id occurring both in the base view (`db`)
and in the received buffer (`dr`) is the strictly younger of the two
(the base entry on equal ages): it is in the merged view, and every
merged descriptor with that id equals it. -/
theorem foldl_mergeStep_winner {s : String}
    {recv view : List NodeDescriptor} {db dr : NodeDescriptor}
    (hnv : (view.map (fun e => e.id)).Nodup)
    (hnr : (recv.map (fun e => e.id)).Nodup)
    (hs : db.id ≠ s)
    (hdb : db ∈ view) (hdr : dr ∈ recv) (hid : db.id = dr.id) :
    (if dr.age < db.age then dr else db) ∈ recv.foldl (mergeStep s) view ∧
    (∀ x ∈ recv.foldl (mergeStep s) view, x.id = db.id →
      x = if dr.age < db.age then dr else db) := by
  obtain ⟨l1, l2, rfl⟩ := List.append_of_mem hdr
  have hsplit : (l1 ++ dr :: l2).foldl (mergeStep s) view =
      l2.foldl (mergeStep s) (mergeStep s (l1.foldl (mergeStep s) view) dr) := by
    rw [List.foldl_append, List.foldl_cons]
  rw [hsplit]
  have hl1 : ∀ d ∈ l1, d.id ≠ db.id := by
    intro d hd hc
    rw [List.map_append, List.map_cons] at hnr
    rcases List.nodup_append.mp hnr with ⟨_, _, hdisj⟩
    exact hdisj (List.mem_map.mpr ⟨d, hd, rfl⟩)
      (by rw [hc, hid]; exact List.mem_cons_self _ _)
  have hl2 : ∀ d ∈ l2, d.id ≠ db.id := by
    intro d hd hc
    rw [List.map_append, List.map_cons] at hnr
    rcases List.nodup_append.mp hnr with ⟨_, hcons, _⟩
    exact (List.nodup_cons.mp hcons).1
      (List.mem_map.mpr ⟨d, hd, by rw [hc, hid]⟩)
  have ht1 : Tracks db.id db (l1.foldl (mergeStep s) view) :=
    tracks_foldl_other l1 view hl1 ⟨hnv, hdb, rfl⟩
  have ht2 : Tracks db.id (if dr.age < db.age then dr else db)
      (mergeStep s (l1.foldl (mergeStep s) view) dr) :=
    tracks_mergeStep_winner ht1 hid.symm hs
  have ht3 : Tracks db.id (if dr.age < db.age then dr else db)
      (l2.foldl (mergeStep s) (mergeStep s (l1.foldl (mergeStep s) view) dr)) :=
    tracks_foldl_other l2 _ hl2 ht2
  exact ⟨ht3.2.1, fun x hx hxid =>
    eq_of_ids_nodup ht3.1 hx ht3.2.1 (hxid.trans ht3.2.2.symm)⟩

theorem mem_mergeView {sh : List NodeDescriptor → List NodeDescriptor}
    (hsh : ShuffleOracle sh) {g : GossipState}
    {recv sent view : List NodeDescriptor} {x : NodeDescriptor}
    (hx : x ∈ mergeView sh g recv sent view) :
    x ∈ recv.foldl (mergeStep g.id) view := by
  rw [mergeView] at hx
  have hx3 : x ∈ dedupFirst (((sortByAge (recv.foldl (mergeStep g.id) view)).take
      ((recv.foldl (mergeStep g.id) view).length -
        min g.opts.H ((recv.foldl (mergeStep g.id) view).length - g.opts.C))).filter
      (fun y => y ∉ (sh sent).take
        (min g.opts.S (((sortByAge (recv.foldl (mergeStep g.id) view)).take
          ((recv.foldl (mergeStep g.id) view).length -
            min g.opts.H ((recv.foldl (mergeStep g.id) view).length - g.opts.C))).length
              - g.opts.C)))) := by
    rw [rDifference] at hx
    split at hx
    · exact (hsh _).subset ((List.drop_sublist _ _).subset hx)
    · exact hx
  have hx2 := (List.mem_filter.mp ((dedupFirst_sublist _).subset hx3)).1
  exact (sortByAge_perm _).subset ((List.take_sublist _ _).subset hx2)

theorem length_mergeView_le {sh : List NodeDescriptor → List NodeDescriptor}
    (hsh : ShuffleOracle sh) (g : GossipState)
    (recv sent view : List NodeDescriptor) :
    (mergeView sh g recv sent view).length ≤ g.opts.C := by
  rw [mergeView]
  split
  · rename_i h
    rw [List.length_drop, (hsh _).length_eq]
    omega
  · rename_i h
    omega

theorem mergeView_ids_nodup {sh : List NodeDescriptor → List NodeDescriptor}
    (hsh : ShuffleOracle sh) {g : GossipState}
    {recv sent view : List NodeDescriptor}
    (h : (view.map (fun e => e.id)).Nodup) :
    ((mergeView sh g recv sent view).map (fun e => e.id)).Nodup := by
  have h1 := foldl_mergeStep_ids_nodup recv view h (s := g.id)
  have h2 : (((sortByAge (recv.foldl (mergeStep g.id) view)).take
      ((recv.foldl (mergeStep g.id) view).length -
        min g.opts.H ((recv.foldl (mergeStep g.id) view).length - g.opts.C))).map
          (fun e => e.id)).Nodup :=
    ((List.take_sublist _ _).map _).nodup
      (((sortByAge_perm _).map _).nodup_iff.mpr h1)
  rw [mergeView]
  have h3 : ∀ (l : List NodeDescriptor) (p : NodeDescriptor → Bool),
      ((l.map (fun e => e.id)).Nodup) →
      (((dedupFirst (l.filter p)).map (fun e => e.id)).Nodup) :=
    fun l p hl => ((dedupFirst_sublist _).trans (List.filter_sublist l)).map _
      |>.nodup hl
  split
  · exact ((List.drop_sublist _ _).map _).nodup
      (((hsh _).map _).nodup_iff.mpr (h3 _ _ h2))
  · exact h3 _ _ h2

/-- When the merged view fits within `C`, the removal phases of
`mergeView` are all no-ops (up to the sort and the final shuffle guard):
the result is a permutation of the merged view. -/
theorem mergeView_perm_of_le
    {sh : List NodeDescriptor → List NodeDescriptor}
    (_hsh : ShuffleOracle sh) {g : GossipState}
    {recv sent view : List NodeDescriptor}
    (hn : ((recv.foldl (mergeStep g.id) view).map (fun e => e.id)).Nodup)
    (hlen : (recv.foldl (mergeStep g.id) view).length ≤ g.opts.C) :
    (mergeView sh g recv sent view).Perm
      (recv.foldl (mergeStep g.id) view) := by
  have hnodup : (recv.foldl (mergeStep g.id) view).Nodup :=
    List.Nodup.of_map _ hn
  have hsort := sortByAge_perm (recv.foldl (mergeStep g.id) view)
  have h0 : (recv.foldl (mergeStep g.id) view).length - g.opts.C = 0 :=
    Nat.sub_eq_zero_of_le hlen
  have ht : (sortByAge (recv.foldl (mergeStep g.id) view)).take
      ((recv.foldl (mergeStep g.id) view).length) =
      sortByAge (recv.foldl (mergeStep g.id) view) := by
    rw [← hsort.length_eq]
    exact List.take_length _
  have h2 : (sortByAge (recv.foldl (mergeStep g.id) view)).length -
      g.opts.C = 0 := by
    rw [hsort.length_eq]
    exact h0
  have hdiff : rDifference (sortByAge (recv.foldl (mergeStep g.id) view))
      ([] : List NodeDescriptor) =
      sortByAge (recv.foldl (mergeStep g.id) view) := by
    rw [rDifference]
    rw [List.filter_eq_self.mpr (fun a _ => by simp)]
    exact dedupFirst_eq_of_nodup _ (hsort.nodup_iff.mpr hnodup)
  rw [mergeView, h0, Nat.min_zero, Nat.sub_zero, ht, h2, Nat.min_zero,
    List.take_zero, hdiff, hsort.length_eq,
    if_neg (not_lt.mpr hlen)]
  exact hsort

/-- **C5.** For a duplicate-free base view not containing the node's own
id, `mergeView` returns at most `C` descriptors, with pairwise-distinct
ids, never the node's own id; and when an id occurs both in the base
view (`db`) and in the (duplicate-free) received buffer (`dr`), the view
keeps the descriptor with the strictly smaller age, in both directions:
every descriptor of the result carrying that id equals the strictly
younger of the two (`dr` when `dr.age < db.age`, `db` when
`db.age < dr.age`, and `db` on equal ages), so the strictly older one is
never kept; moreover, whenever the merged view fits within `C` (so that
the over-capacity removal phases are no-ops), that younger descriptor is
itself present in the result. -/
theorem mergeView_invariants (sh : List NodeDescriptor → List NodeDescriptor)
    (hsh : ShuffleOracle sh) (g : GossipState)
    (recv sent view : List NodeDescriptor)
    (hview : (view.map (fun e => e.id)).Nodup)
    (hself : ∀ x ∈ view, x.id ≠ g.id)
    (hrecv : (recv.map (fun e => e.id)).Nodup) :
    (mergeView sh g recv sent view).length ≤ g.opts.C ∧
    ((mergeView sh g recv sent view).map (fun e => e.id)).Nodup ∧
    (∀ x ∈ mergeView sh g recv sent view, x.id ≠ g.id) ∧
    (∀ db ∈ view, ∀ dr ∈ recv, db.id = dr.id →
      (∀ x ∈ mergeView sh g recv sent view, x.id = db.id →
        x = if dr.age < db.age then dr else db) ∧
      ((recv.foldl (mergeStep g.id) view).length ≤ g.opts.C →
        (if dr.age < db.age then dr else db) ∈
          mergeView sh g recv sent view)) := by
  refine ⟨length_mergeView_le hsh g recv sent view,
    mergeView_ids_nodup hsh hview, ?_, ?_⟩
  · intro x hx
    exact foldl_mergeStep_self_absent recv view hself x (mem_mergeView hsh hx)
  · intro db hdb dr hdr hid
    have hw := foldl_mergeStep_winner hview hrecv (hself db hdb) hdb hdr hid
      (s := g.id)
    refine ⟨fun x hx hxid => hw.2 x (mem_mergeView hsh hx) hxid,
      fun hlen => ?_⟩
    have hperm : (mergeView sh g recv sent view).Perm
        (recv.foldl (mergeStep g.id) view) :=
      mergeView_perm_of_le hsh (foldl_mergeStep_ids_nodup recv view hview)
        hlen
    exact hperm.mem_iff.mpr hw.1

/-- Witness for `mergeView_invariants`: merging `{a: 3}` into the view
`[{a: 1}, {b: 0}]` keeps the strictly younger *base* entry `{a: 1}` — it
is present in the result and is the only descriptor with id `a` — as in
the repository test `gossip.test.js` ("should return view"). -/
theorem mergeView_invariants_witness :
    (mergeView id gossipSelf [⟨"a", 3⟩] [] [⟨"a", 1⟩, ⟨"b", 0⟩]).length ≤ 10 ∧
    (∀ x ∈ mergeView id gossipSelf [⟨"a", 3⟩] [] [⟨"a", 1⟩, ⟨"b", 0⟩],
      x.id = "a" → x = ⟨"a", 1⟩) ∧
    (⟨"a", 1⟩ : NodeDescriptor) ∈
      mergeView id gossipSelf [⟨"a", 3⟩] [] [⟨"a", 1⟩, ⟨"b", 0⟩] :=
  have h := mergeView_invariants id (fun l => List.Perm.refl l) gossipSelf
    [⟨"a", 3⟩] [] [⟨"a", 1⟩, ⟨"b", 0⟩] (by decide) (by decide) (by decide)
  have h4 := h.2.2.2 ⟨"a", 1⟩ (by decide) ⟨"a", 3⟩ (by decide) rfl
  ⟨h.1, fun x hx hxid => by simpa using h4.1 x hx hxid,
    by simpa using h4.2 (by decide)⟩

theorem mem_computeBuffer {sh : List NodeDescriptor → List NodeDescriptor}
    (hsh : ShuffleOracle sh) {g : GossipState} {distantId : String}
    {view : List NodeDescriptor} {b : ℚ} {x : NodeDescriptor}
    (hx : x ∈ computeBuffer sh g distantId view b) :
    x ∈ filteredView distantId view := by
  rw [computeBuffer] at hx
  split at hx
  · exact hx
  · have hmem : ∀ y : NodeDescriptor,
        y ∈ jsHead g.opts.H (sortByAge (filteredView distantId view)) ∨
        y ∈ jsTail g.opts.H (sortByAge (filteredView distantId view)) →
        y ∈ filteredView distantId view := by
      intro y hy
      refine (sortByAge_perm _).subset ?_
      rw [← jsHead_append_jsTail g.opts.H
        (sortByAge (filteredView distantId view))]
      exact List.mem_append.mpr hy
    dsimp only at hx
    split at hx
    · exact hmem x (Or.inl (mem_randomSubview hsh hx))
    · split at hx
      · exact hmem x (Or.inl hx)
      · have := (dedupFirst_sublist _).subset hx
        rcases List.mem_append.mp this with h | h
        · exact hmem x (Or.inl h)
        · exact hmem x (Or.inr (mem_randomSubview hsh h))

theorem length_computeBuffer_le
    {sh : List NodeDescriptor → List NodeDescriptor}
    (_hsh : ShuffleOracle sh) (g : GossipState) (distantId : String)
    (view : List NodeDescriptor) {b : ℚ} (hb : 0 ≤ b) :
    ((computeBuffer sh g distantId view b).length : ℚ) ≤ b := by
  rw [computeBuffer]
  split
  · rename_i h
    exact le_of_lt h
  · rename_i hnl
    dsimp only
    split
    · rename_i hlt
      exact length_randomSubview_le hb _
    · rename_i hlt
      split
      · rename_i heq
        exact le_of_eq heq.symm
      · rename_i heq
        have hl_le : ((jsHead g.opts.H
            (sortByAge (filteredView distantId view))).length : ℚ) ≤ b :=
          not_lt.mp hlt
        calc ((rUnion (jsHead g.opts.H (sortByAge (filteredView distantId view)))
              (randomSubview sh (b - ((jsHead g.opts.H
                (sortByAge (filteredView distantId view))).length : ℚ))
                (jsTail g.opts.H (sortByAge (filteredView distantId view))))).length
                : ℚ)
            ≤ (((jsHead g.opts.H (sortByAge (filteredView distantId view))).length
                + (randomSubview sh (b - ((jsHead g.opts.H
                  (sortByAge (filteredView distantId view))).length : ℚ))
                  (jsTail g.opts.H
                    (sortByAge (filteredView distantId view)))).length : ℕ) : ℚ) := by
              exact_mod_cast (dedupFirst_length_le _).trans
                (le_of_eq (List.length_append _ _))
          _ ≤ b := by
              push_cast
              have h1 : ((randomSubview sh (b - ((jsHead g.opts.H
                  (sortByAge (filteredView distantId view))).length : ℚ))
                  (jsTail g.opts.H
                    (sortByAge (filteredView distantId view)))).length : ℚ)
                  ≤ b - ((jsHead g.opts.H
                    (sortByAge (filteredView distantId view))).length : ℚ) :=
                length_randomSubview_le (by linarith) _
              linarith

theorem computeBuffer_perm {sh : List NodeDescriptor → List NodeDescriptor}
    (hsh : ShuffleOracle sh) {g : GossipState} {distantId : String}
    {view : List NodeDescriptor} {b : ℚ}
    (hn : ((filteredView distantId view).map (fun e => e.id)).Nodup)
    (hle : ((filteredView distantId view).length : ℚ) ≤ b) :
    (computeBuffer sh g distantId view b).Perm
      (filteredView distantId view) := by
  rw [computeBuffer]
  split
  · exact List.Perm.refl _
  · rename_i hnl
    have heq : ((filteredView distantId view).length : ℚ) = b :=
      le_antisymm hle (not_lt.mp hnl)
    have hSF : (sortByAge (filteredView distantId view)).Perm
        (filteredView distantId view) := sortByAge_perm _
    have hlen : (sortByAge (filteredView distantId view)).length =
        (filteredView distantId view).length := hSF.length_eq
    have hht := jsHead_append_jsTail g.opts.H
      (sortByAge (filteredView distantId view))
    have hsum : (jsHead g.opts.H
        (sortByAge (filteredView distantId view))).length +
        (jsTail g.opts.H
          (sortByAge (filteredView distantId view))).length =
        (filteredView distantId view).length := by
      rw [← hlen, ← List.length_append, hht]
    dsimp only
    split
    · rename_i hlt
      exfalso
      have : ((jsHead g.opts.H
          (sortByAge (filteredView distantId view))).length : ℚ) ≤ b := by
        rw [← heq]
        exact_mod_cast Nat.le.intro hsum
      exact absurd hlt (not_lt.mpr this)
    · rename_i hlt
      split
      · rename_i heq2
        have hl_eq : (jsHead g.opts.H
            (sortByAge (filteredView distantId view))).length =
            (filteredView distantId view).length := by
          have : ((jsHead g.opts.H
              (sortByAge (filteredView distantId view))).length : ℚ) =
              ((filteredView distantId view).length : ℚ) := by
            rw [heq, heq2]
          exact_mod_cast this
        have ht0 : (jsTail g.opts.H
            (sortByAge (filteredView distantId view))).length = 0 := by omega
        have hhS : jsHead g.opts.H (sortByAge (filteredView distantId view)) =
            sortByAge (filteredView distantId view) := by
          have := hht
          rw [List.length_eq_zero.mp ht0, List.append_nil] at this
          exact this
        rw [hhS]
        exact hSF
      · rename_i hne2
        have hbl : b - ((jsHead g.opts.H
            (sortByAge (filteredView distantId view))).length : ℚ) =
            ((jsTail g.opts.H
              (sortByAge (filteredView distantId view))).length : ℚ) := by
          have h1 : ((jsHead g.opts.H
              (sortByAge (filteredView distantId view))).length : ℚ) +
              ((jsTail g.opts.H
                (sortByAge (filteredView distantId view))).length : ℚ) =
              ((filteredView distantId view).length : ℚ) := by
            exact_mod_cast congrArg (fun n : ℕ => (n : ℚ)) hsum
          linarith [heq]
        rw [rUnion, randomSubview_nonneg sh (by rw [hbl]; positivity) _, hbl,
          floorToNat_natCast,
          ← (hsh (jsTail g.opts.H (sortByAge (filteredView distantId view)))).length_eq,
          List.take_length]
        have happ1 : (jsHead g.opts.H (sortByAge (filteredView distantId view)) ++
            sh (jsTail g.opts.H (sortByAge (filteredView distantId view)))).Perm
            (jsHead g.opts.H (sortByAge (filteredView distantId view)) ++
              jsTail g.opts.H (sortByAge (filteredView distantId view))) :=
          List.Perm.append_left _ (hsh _)
        have happ : (jsHead g.opts.H (sortByAge (filteredView distantId view)) ++
            sh (jsTail g.opts.H (sortByAge (filteredView distantId view)))).Perm
            (filteredView distantId view) := by
          rw [hht] at happ1
          exact happ1.trans hSF
        rw [dedupFirst_eq_of_nodup _
          (happ.nodup_iff.mpr (List.Nodup.of_map _ hn))]
        exact happ

theorem mem_computeBuffer_iff
    {sh : List NodeDescriptor → List NodeDescriptor}
    (hsh : ShuffleOracle sh) {g : GossipState} {distantId : String}
    {view : List NodeDescriptor} {b : ℚ}
    (hle : ((filteredView distantId view).length : ℚ) ≤ b)
    (x : NodeDescriptor) :
    x ∈ computeBuffer sh g distantId view b ↔
      x ∈ filteredView distantId view := by
  refine ⟨mem_computeBuffer hsh, fun hx => ?_⟩
  rw [computeBuffer]
  split
  · exact hx
  · rename_i hnl
    have heq : ((filteredView distantId view).length : ℚ) = b :=
      le_antisymm hle (not_lt.mp hnl)
    have hSF : (sortByAge (filteredView distantId view)).Perm
        (filteredView distantId view) := sortByAge_perm _
    have hlen : (sortByAge (filteredView distantId view)).length =
        (filteredView distantId view).length := hSF.length_eq
    have hht := jsHead_append_jsTail g.opts.H
      (sortByAge (filteredView distantId view))
    have hsum : (jsHead g.opts.H
        (sortByAge (filteredView distantId view))).length +
        (jsTail g.opts.H
          (sortByAge (filteredView distantId view))).length =
        (filteredView distantId view).length := by
      rw [← hlen, ← List.length_append, hht]
    have hxS : x ∈ sortByAge (filteredView distantId view) :=
      hSF.mem_iff.mpr hx
    dsimp only
    split
    · rename_i hlt
      exfalso
      have : ((jsHead g.opts.H
          (sortByAge (filteredView distantId view))).length : ℚ) ≤ b := by
        rw [← heq]
        exact_mod_cast Nat.le.intro hsum
      exact absurd hlt (not_lt.mpr this)
    · rename_i hlt
      split
      · rename_i heq2
        have hl_eq : (jsHead g.opts.H
            (sortByAge (filteredView distantId view))).length =
            (filteredView distantId view).length := by
          have : ((jsHead g.opts.H
              (sortByAge (filteredView distantId view))).length : ℚ) =
              ((filteredView distantId view).length : ℚ) := by
            rw [heq, heq2]
          exact_mod_cast this
        have ht0 : (jsTail g.opts.H
            (sortByAge (filteredView distantId view))).length = 0 := by omega
        have hhS : jsHead g.opts.H (sortByAge (filteredView distantId view)) =
            sortByAge (filteredView distantId view) := by
          have := hht
          rw [List.length_eq_zero.mp ht0, List.append_nil] at this
          exact this
        rw [hhS]
        exact hxS
      · rename_i hne2
        have hbl : b - ((jsHead g.opts.H
            (sortByAge (filteredView distantId view))).length : ℚ) =
            ((jsTail g.opts.H
              (sortByAge (filteredView distantId view))).length : ℚ) := by
          have h1 : ((jsHead g.opts.H
              (sortByAge (filteredView distantId view))).length : ℚ) +
              ((jsTail g.opts.H
                (sortByAge (filteredView distantId view))).length : ℚ) =
              ((filteredView distantId view).length : ℚ) := by
            exact_mod_cast congrArg (fun n : ℕ => (n : ℚ)) hsum
          linarith [heq]
        rw [rUnion, randomSubview_nonneg sh (by rw [hbl]; positivity) _, hbl,
          floorToNat_natCast,
          ← (hsh (jsTail g.opts.H (sortByAge (filteredView distantId view)))).length_eq,
          List.take_length, mem_dedupFirst]
        rw [← hht] at hxS
        rcases List.mem_append.mp hxS with h | h
        · exact List.mem_append_left _ h
        · exact List.mem_append_right _ ((hsh _).mem_iff.mpr h)

/-- **C6** (counterexample).  `genBuffer` *can* return a descriptor whose
id equals `distantId`, and the active buffer *can* exceed `C/2`: with
`distantId` equal to the node's own id and `C = 1`, the active thread on
the empty view returns exactly `[{id: "self", age: 0}]` — a buffer that
contains a descriptor with id `distantId` and whose length `1` is more
than `C/2 = 1/2`. -/
theorem genBuffer_self_distant_counterexample :
    (∃ d ∈ genBuffer id gossipOne "active" "self"
        ([] : List NodeDescriptor), d.id = "self") ∧
    ¬ (((genBuffer id gossipOne "active" "self"
        ([] : List NodeDescriptor)).length : ℚ) ≤
          (gossipOne.opts.C : ℚ) / 2) := by
  have hg : genBuffer id gossipOne "active" "self" [] = [⟨"self", 0⟩] := by
    norm_num [genBuffer, computeBuffer, filteredView, sortByAge,
      List.insertionSort, jsHead, jsTail, randomSubview, jsTrunc,
      selfDescriptor, gossipOne]
  rw [hg]
  refine ⟨⟨⟨"self", 0⟩, List.mem_singleton.mpr rfl, rfl⟩, ?_⟩
  norm_num [gossipOne]

/-- **C6** (amended).  Provided the exchange partner `distantId` is not
the node's own id and `C ≥ 2`: `genBuffer` never returns a descriptor
with id `distantId` (either thread); the active buffer contains the
node's own descriptor with age 0; the buffer length is at most `C/2` for
both threads; and whenever the filtered view has at most `C/2 − 1`
(active) resp. `C/2` (passive) elements, the returned buffer consists of
exactly the elements of the entire filtered view — plus the own
descriptor in the active case.  (The shuffle oracle `sh` stands for
`shuffleArray`, whose outputs are permutations of its input.) -/
theorem genBuffer_spec (sh : List NodeDescriptor → List NodeDescriptor)
    (hsh : ShuffleOracle sh) (g : GossipState) (distantId : String)
    (view : List NodeDescriptor) (hdist : distantId ≠ g.id)
    (hC : 2 ≤ g.opts.C) :
    (∀ d ∈ genBuffer sh g "active" distantId view, d.id ≠ distantId) ∧
    (∀ d ∈ genBuffer sh g "passive" distantId view, d.id ≠ distantId) ∧
    (⟨g.id, 0⟩ : NodeDescriptor) ∈ genBuffer sh g "active" distantId view ∧
    ((genBuffer sh g "active" distantId view).length : ℚ) ≤
      (g.opts.C : ℚ) / 2 ∧
    ((genBuffer sh g "passive" distantId view).length : ℚ) ≤
      (g.opts.C : ℚ) / 2 ∧
    (((filteredView distantId view).length : ℚ) ≤ (g.opts.C : ℚ) / 2 - 1 →
      ∀ x, x ∈ genBuffer sh g "active" distantId view ↔
        (x ∈ filteredView distantId view ∨ x = ⟨g.id, 0⟩)) ∧
    (((filteredView distantId view).length : ℚ) ≤ (g.opts.C : ℚ) / 2 →
      ∀ x, x ∈ genBuffer sh g "passive" distantId view ↔
        x ∈ filteredView distantId view) := by
  have hb_active : (0 : ℚ) ≤ (g.opts.C : ℚ) / 2 - 1 := by
    have h2 : (2 : ℚ) ≤ (g.opts.C : ℚ) := by exact_mod_cast hC
    linarith
  have hb_passive : (0 : ℚ) ≤ (g.opts.C : ℚ) / 2 := by positivity
  have hact : genBuffer sh g "active" distantId view =
      computeBuffer sh g distantId view ((g.opts.C : ℚ) / 2 - 1) ++
        [selfDescriptor g] := by
    rw [genBuffer, if_pos rfl]
  have hpas : genBuffer sh g "passive" distantId view =
      computeBuffer sh g distantId view ((g.opts.C : ℚ) / 2) := by
    rw [genBuffer, if_neg (by decide)]
  refine ⟨?_, ?_, ?_, ?_, ?_, ?_, ?_⟩
  · intro d hd
    rw [hact] at hd
    rcases List.mem_append.mp hd with h | h
    · exact (mem_filteredView (mem_computeBuffer hsh h)).2
    · rw [List.mem_singleton] at h
      rw [h]
      exact fun hc => hdist (hc ▸ rfl)
  · intro d hd
    rw [hpas] at hd
    exact (mem_filteredView (mem_computeBuffer hsh hd)).2
  · rw [hact]
    exact List.mem_append_right _ (List.mem_singleton.mpr rfl)
  · rw [hact, List.length_append, List.length_singleton]
    have h1 := length_computeBuffer_le hsh g distantId view hb_active
    push_cast
    push_cast at h1
    linarith
  · rw [hpas]
    exact length_computeBuffer_le hsh g distantId view hb_passive
  · intro hle x
    rw [hact, List.mem_append, List.mem_singleton,
      mem_computeBuffer_iff hsh hle x]
    exact Iff.rfl
  · intro hle x
    rw [hpas]
    exact mem_computeBuffer_iff hsh hle x

/-- Witness for `genBuffer_spec` on the seven-descriptor view with
`distantId = "d"` and the default options. -/
theorem genBuffer_spec_witness :
    (∀ d ∈ genBuffer id gossipSelf "active" "d" viewSeven, d.id ≠ "d") ∧
    (⟨"self", 0⟩ : NodeDescriptor) ∈
      genBuffer id gossipSelf "active" "d" viewSeven :=
  have h := genBuffer_spec id (fun l => List.Perm.refl l) gossipSelf "d"
    viewSeven (by decide) (by decide)
  ⟨h.1, h.2.2.1⟩

end Paradone
